import Mathlib

/-!
Shallow embedding of the birth-death decision engine of the bdld package,
translated from `bdld/actions/birth_death.py` together with the
construction-time parameter checks of `bdld/bdld.py`, and theorems settling
the specification claims about it.

Conventions of the embedding:
* numpy float arrays become functions `Fin n → ℝ` (for the density / beta
  arithmetic) or `List ℝ` (for the event-selection pipeline, mirroring the
  per-index list manipulation of `calculate_birth_death`);
* the per-invocation random draws of the engine's RNG are explicit inputs:
  `rand` is the list produced by `rng.random(num_part)` (values in `[0,1)`),
  `shuffle` is the permutation applied by `rng.shuffle`, and `draws k` is the
  value returned by the k-th call of `rng.integers(num_part - 1)`;
* a numpy value that can be `-inf` (the log of a density that underflowed to
  zero) is modelled as `Option ℝ` with `none` standing for `-inf`;
* Python exceptions raised during construction become `Except String Unit`.
-/

namespace BDLD

/-- Embedding of `BirthDeath.random_particle` (birth_death.py lines 190-200):
`num = rng.integers(num_part - 1); if num >= excl: num += 1; return num`.
The uniform draw from `[0, num_part - 1)` is the explicit argument `draw`. -/
def random_particle (numPart excl draw : ℕ) : ℕ :=
  if excl ≤ draw then draw + 1 else draw

/-- Embedding of line 149 of birth_death.py:
`prob = 1 - np.exp(-np.abs(beta) * self.dt * self.rate_fac)`. -/
noncomputable def probs (beta : List ℝ) (dt rate_fac : ℝ) : List ℝ :=
  beta.map fun b => 1 - Real.exp (-|b| * dt * rate_fac)

/-- Embedding of line 151 of birth_death.py:
`event_particles = np.where(rand <= prob)[0]` (ascending index order). -/
noncomputable def eventParticles (prob rand : List ℝ) : List ℕ :=
  (List.range prob.length).filter fun i => rand.getD i 1 ≤ prob.getD i 0

/-- Embedding of the loop over the shuffled event candidates
(birth_death.py lines 153-163).  It threads `dup_list` and `kill_list` and
consumes one `rng.integers` draw per accepted event; the statistics counters
mutated alongside do not influence the returned lists and are not modelled
here.  Candidates already present in `kill_list` are skipped. -/
noncomputable def selLoop (beta : List ℝ) (numPart : ℕ) (draws : ℕ → ℕ) :
    List ℕ → List ℕ → List ℕ → ℕ → List ℕ × List ℕ
  | [], dupList, killList, _ => (dupList, killList)
  | i :: rest, dupList, killList, k =>
    if i ∈ killList then
      selLoop beta numPart draws rest dupList killList k
    else if 0 < beta.getD i 0 then
      selLoop beta numPart draws rest
        (dupList ++ [random_particle numPart i (draws k)]) (killList ++ [i]) (k + 1)
    else if beta.getD i 0 < 0 then
      selLoop beta numPart draws rest
        (dupList ++ [i]) (killList ++ [random_particle numPart i (draws k)]) (k + 1)
    else
      selLoop beta numPart draws rest dupList killList k

/-- Embedding of `BirthDeath.calculate_birth_death` (birth_death.py lines
130-165), with the beta vector produced by `calc_betas` and the three uses of
the RNG made explicit.  Returns `list(zip(dup_list, kill_list))`. -/
noncomputable def calculate_birth_death (beta : List ℝ) (dt rate_fac : ℝ)
    (rand : List ℝ) (shuffle : List ℕ → List ℕ) (draws : ℕ → ℕ) :
    List (ℕ × ℕ) :=
  let numPart := beta.length
  let prob := probs beta dt rate_fac
  let event_particles := shuffle (eventParticles prob rand)
  let res := selLoop beta numPart draws event_particles [] [] 0
  res.1.zip res.2

/-- Embedding of line 71 of birth_death.py:
`self.rate_fac = rate_factor or 1.0`.  Python's `or` replaces both `None`
and the falsy float `0.0` by the default `1.0`. -/
noncomputable def rate_fac_of (rate_factor : Option ℝ) : ℝ :=
  match rate_factor with
  | none => 1
  | some x => if x = 0 then 1 else x

/-- Embedding of `calc_kernel` (birth_death.py lines 328-341) for a single
row of distances: `1 / ((2*pi)**(len(bw)/2) * prod(bw)) * exp(-sum(dist**2 /
(2*bw**2)))`. -/
noncomputable def calc_kernel (d : ℕ) (bw dist : Fin d → ℝ) : ℝ :=
  1 / ((2 * Real.pi) ^ ((d : ℝ) / 2) * ∏ k, bw k) *
    Real.exp (-∑ k, dist k ^ 2 / (2 * bw k ^ 2))

/-- Embedding of `_walker_density_manual` (birth_death.py lines 360-377):
`density[i] = np.mean(calc_kernel(pos[i] - pos[j] for j), bw)`. -/
noncomputable def walker_density_manual (n d : ℕ) (pos : Fin n → Fin d → ℝ)
    (bw : Fin d → ℝ) : Fin n → ℝ :=
  fun i => (∑ j, calc_kernel d bw fun k => pos i k - pos j k) / n

/-- Embedding of `_walker_density_pdist` (birth_death.py lines 380-412).
The scipy condensed distance matrix turned into a full matrix by
`squareform` with `np.fill_diagonal` is modelled directly as the symmetric
matrix entry: off the diagonal the per-dimension Gaussian factors
`heights[k] * exp(-sqdist_k / (2*bw[k]**2))` multiplied over the dimensions,
on the diagonal `np.prod(heights)`.  The special 1-d branch of the code
(single `sqeuclidean` pdist over the full rows) is kept as a separate case.
`np.mean(gauss, axis=0)` is the mean over the first index. -/
noncomputable def walker_density_pdist (n d : ℕ) (pos : Fin n → Fin d → ℝ)
    (bw : Fin d → ℝ) : Fin n → ℝ :=
  if h : d = 1 then
    let bw0 : ℝ := bw ⟨0, by omega⟩
    let height : ℝ := 1 / (Real.sqrt (2 * Real.pi) * bw0)
    fun j => (∑ i, if i = j then height
      else height * Real.exp (-(∑ k, (pos i k - pos j k) ^ 2) / (2 * bw0 ^ 2))) / n
  else
    let heights : Fin d → ℝ := fun k => 1 / (Real.sqrt (2 * Real.pi) * bw k)
    fun j => (∑ i, if i = j then ∏ k, heights k
      else ∏ k, heights k * Real.exp (-((pos i k - pos j k) ^ 2) / (2 * bw k ^ 2))) / n

/-- Embedding of the dispatching `walker_density` (birth_death.py lines
344-357): the pdist strategy for at most 10000 walkers, the manual
per-walker strategy above that. -/
noncomputable def walker_density (n d : ℕ) (pos : Fin n → Fin d → ℝ)
    (bw : Fin d → ℝ) : Fin n → ℝ :=
  if n ≤ 10000 then walker_density_pdist n d pos bw
  else walker_density_manual n d pos bw

/-- Embedding of `np.log` applied to a (nonnegative) density value:
`none` stands for the `-inf` produced by `np.log(0.0)`. -/
noncomputable def elog (x : ℝ) : Option ℝ :=
  if 0 < x then some (Real.log x) else none

/-- Adding a finite float to a possibly `-inf` value: `-inf + c = -inf`. -/
def oadd (b : Option ℝ) (c : ℝ) : Option ℝ :=
  b.map (· + c)

/-- Subtracting a finite float from a possibly `-inf` value:
`-inf - c = -inf`. -/
def osub (b : Option ℝ) (c : ℝ) : Option ℝ :=
  b.map (· - c)

/-- Embedding of `np.mean(beta[beta != -np.inf])` (birth_death.py lines 179
and 187): the arithmetic mean of the finite entries of the beta array. -/
noncomputable def finiteMean (n : ℕ) (beta : Fin n → Option ℝ) : ℝ :=
  (∑ i ∈ Finset.univ.filter fun i => (beta i).isSome, (beta i).getD 0) /
    (Finset.univ.filter fun i => (beta i).isSome).card

/-- Embedding of `BirthDeath.calc_betas` (birth_death.py lines 167-188).
The density values (computed by `walker_density` from the particle
positions) and the interpolated correction values (the external Grid
collaborator's `correction.interpolate(pos, "linear", 0.0)`, with fallback 0
outside the grid) enter as explicit arrays; the energies are multiplied by
`inv_kt`.  The branch condition mirrors
`if self.correction_variant == "additive" or not self.correction_variant`,
where Python treats both `None` and the empty string as falsy. -/
noncomputable def calc_betas_core (n : ℕ) (density ene : Fin n → ℝ)
    (invKt : ℝ) (variant : Option String) (corr : Fin n → ℝ) :
    Fin n → Option ℝ :=
  let beta0 : Fin n → Option ℝ := fun i => elog (density i)
  if variant = some "additive" ∨ variant.getD "" = "" then
    let b1 : Fin n → Option ℝ := fun i => oadd (beta0 i) (ene i * invKt)
    let m := finiteMean n b1
    let b2 : Fin n → Option ℝ := fun i => osub (b1 i) m
    if variant = some "additive" then fun i => oadd (b2 i) (corr i) else b2
  else if variant = some "multiplicative" then
    let b1 : Fin n → Option ℝ := fun i => oadd (beta0 i) (corr i)
    let m := finiteMean n b1
    fun i => osub (b1 i) m
  else beta0

/-- Modelled from the claim wording of C3 (spec section 4.2): for the
Additive variant, beta is claimed to be `log(density) + energy/kT +
correction(position) - mean(beta over entries where beta is finite)` with
the correction term included before the mean subtraction. -/
noncomputable def calc_betas_additive_claimC3 (n : ℕ) (density ene : Fin n → ℝ)
    (invKt : ℝ) (corr : Fin n → ℝ) : Fin n → Option ℝ :=
  let b1 : Fin n → Option ℝ :=
    fun i => oadd (elog (density i)) (ene i * invKt + corr i)
  let m := finiteMean n b1
  fun i => osub (b1 i) m

/-- The combination actually computed by the code for the additive variant:
the mean of `log(density) + energy/kT` over its finite entries is subtracted
first, the interpolated correction is added afterwards. -/
noncomputable def calc_betas_additive_code (n : ℕ) (density ene : Fin n → ℝ)
    (invKt : ℝ) (corr : Fin n → ℝ) : Fin n → Option ℝ :=
  let b1 : Fin n → Option ℝ := fun i => oadd (elog (density i)) (ene i * invKt)
  let m := finiteMean n b1
  fun i => oadd (osub (b1 i) m) (corr i)

/-- Embedding of the parameter checks of
`BirthDeathLangevinDynamics.setup` (bdld.py lines 55-68): with a nonzero
birth-death stride, the bandwidth list must match the dimensionality of the
potential and every bandwidth must be positive; each violation raises a
`ValueError` before the `BirthDeath` object is constructed. -/
noncomputable def bdld_setup_check (n_dim : ℕ) (bd_bw : List ℝ)
    (bd_stride : ℕ) : Except String Unit :=
  if bd_stride ≠ 0 then
    if n_dim ≠ bd_bw.length then
      Except.error "Dimensions of potential and birth-death kernel bandwidths do not match"
    else if ∃ x ∈ bd_bw, x ≤ 0 then
      Except.error "The bandwidth of the Gaussian kernels needs to be greater than 0"
    else Except.ok ()
  else Except.ok ()

/-- Embedding of the fallible part of `BirthDeath.__init__` (birth_death.py
lines 64-105).  `self.inv_kt = 1 / kt` raises `ZeroDivisionError` exactly
when `kt = 0`; afterwards `if self.correction_variant:` (truthy, i.e.
neither `None` nor the empty string) checks that an equilibrium density was
passed and that the variant name is one of "additive" / "multiplicative".
The construction of the correction grid itself is performed by the external
Grid collaborator and is modelled as succeeding. -/
noncomputable def birth_death_init (kt : ℝ) (correction_variant : Option String)
    (has_eq_density : Bool) : Except String Unit :=
  if kt = 0 then Except.error "ZeroDivisionError: division by zero"
  else if correction_variant.getD "" ≠ "" then
    if !has_eq_density then
      Except.error "No equilibrium density for the correction was passed"
    else if correction_variant = some "additive" then Except.ok ()
    else if correction_variant = some "multiplicative" then Except.ok ()
    else Except.error "Specified correction variant was not understood"
  else Except.ok ()

/-- Embedding of the screen branch of `BirthDeath.Stats.print`
(birth_death.py lines 292-323): the four reported values
`(dup_perc, kill_perc, ratio_succ, ratio_attempts)`, where every division is
guarded by `try ... except ZeroDivisionError` replacing the result by
`np.nan`, modelled as `none`.  Python's true division of the integer
counters is exact rational arithmetic here. -/
def stats_print (dup_count dup_attempts kill_count kill_attempts : ℕ) :
    Option ℚ × Option ℚ × Option ℚ × Option ℚ :=
  let kill_perc : Option ℚ :=
    if kill_attempts = 0 then none
    else some (100 * (kill_count : ℚ) / kill_attempts)
  let dup_perc : Option ℚ :=
    if dup_attempts = 0 then none
    else some (100 * (dup_count : ℚ) / dup_attempts)
  let ratio_succ : Option ℚ :=
    if kill_count = 0 then none else some ((dup_count : ℚ) / kill_count)
  let ratio_attempts : Option ℚ :=
    if kill_attempts = 0 then none
    else some ((dup_attempts : ℚ) / kill_attempts)
  (dup_perc, kill_perc, ratio_succ, ratio_attempts)

/-- Claim C6: for every n ≥ 2 and excluded index excl < n, the
partner-selection map of random_particle (d ↦ d+1 if d ≥ excl else d) maps
the draw range {0, …, n−2} bijectively onto {0, …, n−1} \ {excl}: its image
is exactly the set of all indices other than excl, it is injective on the
draw range, and the returned partner never equals excl and stays below n —
so a uniform draw yields a uniform partner among all other particles. -/
theorem random_particle_bijection (n excl : ℕ) (hn : 2 ≤ n) (he : excl < n) :
    ((Finset.range (n - 1)).image (random_particle n excl) =
      (Finset.range n).erase excl) ∧
    (∀ d₁ < n - 1, ∀ d₂ < n - 1,
      random_particle n excl d₁ = random_particle n excl d₂ → d₁ = d₂) ∧
    (∀ d < n - 1, random_particle n excl d ≠ excl ∧ random_particle n excl d < n) := by
  refine ⟨?_, ?_, ?_⟩
  · ext x
    simp only [Finset.mem_image, Finset.mem_range, Finset.mem_erase,
      random_particle]
    constructor
    · rintro ⟨d, hd, rfl⟩
      split <;> omega
    · rintro ⟨hx, hxn⟩
      rcases lt_or_le x excl with hc | hc
      · exact ⟨x, by omega, by rw [if_neg (by omega)]⟩
      · exact ⟨x - 1, by omega, by rw [if_pos (by omega)]; omega⟩
  · intro d₁ h1 d₂ h2 h
    simp only [random_particle] at h
    split at h <;> split at h <;> omega
  · intro d hd
    simp only [random_particle]
    split <;> omega

/-- Witness for C6 at n = 3, excl = 1. -/
theorem random_particle_bijection_witness :
    2 ≤ 3 ∧
    (((Finset.range (3 - 1)).image (random_particle 3 1) =
        (Finset.range 3).erase 1) ∧
      (∀ d₁ < 3 - 1, ∀ d₂ < 3 - 1,
        random_particle 3 1 d₁ = random_particle 3 1 d₂ → d₁ = d₂) ∧
      (∀ d < 3 - 1, random_particle 3 1 d ≠ 1 ∧ random_particle 3 1 d < 3)) :=
  ⟨by norm_num, random_particle_bijection 3 1 (by norm_num) (by norm_num)⟩

/-- Claim C9: for every counter state, the human-readable Stats report
computes each success percentage as exactly 100·count/attempts, each ratio
as the exact quotient, and whenever the corresponding divisor is zero the
reported value is the not-a-number marker instead of an exception. -/
theorem stats_print_spec (dc da kc ka : ℕ) :
    ((stats_print dc da kc ka).1 = none ↔ da = 0) ∧
    (da ≠ 0 → (stats_print dc da kc ka).1 = some (100 * (dc : ℚ) / da)) ∧
    ((stats_print dc da kc ka).2.1 = none ↔ ka = 0) ∧
    (ka ≠ 0 → (stats_print dc da kc ka).2.1 = some (100 * (kc : ℚ) / ka)) ∧
    ((stats_print dc da kc ka).2.2.1 = none ↔ kc = 0) ∧
    (kc ≠ 0 → (stats_print dc da kc ka).2.2.1 = some ((dc : ℚ) / kc)) ∧
    ((stats_print dc da kc ka).2.2.2 = none ↔ ka = 0) ∧
    (ka ≠ 0 → (stats_print dc da kc ka).2.2.2 = some ((da : ℚ) / ka)) := by
  simp only [stats_print]
  refine ⟨?_, ?_, ?_, ?_, ?_, ?_, ?_, ?_⟩ <;> split_ifs <;> simp_all

/-- Witness for C9 at counters (1, 3, 2, 5). -/
theorem stats_print_spec_witness :
    (3 : ℕ) ≠ 0 ∧ (stats_print 1 3 2 5).1 = some (100 * (1 : ℚ) / 3) :=
  ⟨by norm_num, (stats_print_spec 1 3 2 5).2.1 (by norm_num)⟩

/-- Counterexample to claim C5: kT = -1 satisfies kT ≤ 0, yet an engine
constructed with it (no correction variant, bandwidth [1], 1-dimensional
potential, stride 1) passes every construction-time check — neither the
setup checks of bdld.py nor BirthDeath.__init__ raise. -/
theorem construction_accepts_negative_kt :
    (-1 : ℝ) ≤ 0 ∧ birth_death_init (-1) none true = Except.ok () ∧
      bdld_setup_check 1 [1] 1 = Except.ok () := by
  refine ⟨by norm_num, ?_, ?_⟩
  · simp only [birth_death_init, Option.getD]
    norm_num
  · simp only [bdld_setup_check, List.length_singleton, List.mem_singleton]
    norm_num

/-- Claim C5 (amended): construction raises eagerly in each of these cases:
a correction variant is requested (truthy name) without an equilibrium
density; the variant name is not a recognized value; the bandwidth length
does not match the dimensionality; some bandwidth entry is ≤ 0; kT = 0
(ZeroDivisionError when computing 1/kT).  A negative kT, however, is not
validated anywhere and construction succeeds (see the counterexample), so
the claimed case "kT ≤ 0" must be weakened to "kT = 0". -/
theorem construction_validation :
    (∀ (kt : ℝ) (v : String), v ≠ "" →
      ∃ e, birth_death_init kt (some v) false = Except.error e) ∧
    (∀ (kt : ℝ) (v : String) (dEq : Bool), v ≠ "" → v ≠ "additive" →
      v ≠ "multiplicative" →
      ∃ e, birth_death_init kt (some v) dEq = Except.error e) ∧
    (∀ (n_dim : ℕ) (bw : List ℝ) (stride : ℕ), stride ≠ 0 →
      n_dim ≠ bw.length →
      ∃ e, bdld_setup_check n_dim bw stride = Except.error e) ∧
    (∀ (n_dim : ℕ) (bw : List ℝ) (stride : ℕ), stride ≠ 0 →
      (∃ x ∈ bw, x ≤ 0) →
      ∃ e, bdld_setup_check n_dim bw stride = Except.error e) ∧
    (∀ (v : Option String) (dEq : Bool),
      ∃ e, birth_death_init 0 v dEq = Except.error e) := by
  refine ⟨?_, ?_, ?_, ?_, ?_⟩
  · intro kt v hv
    simp only [birth_death_init, Option.getD]
    split_ifs <;> simp_all
  · intro kt v dEq hv ha hm
    simp only [birth_death_init, Option.getD]
    split_ifs <;> simp_all
  · intro n_dim bw stride hs hd
    simp only [bdld_setup_check]
    split_ifs <;> simp_all
  · intro n_dim bw stride hs hbw
    simp only [bdld_setup_check]
    split_ifs <;> simp_all
  · intro v dEq
    simp only [birth_death_init]
    split_ifs <;> simp_all

/-- Witness for C5 (amended): requesting the additive correction without an
equilibrium density is rejected. -/
theorem construction_validation_witness :
    "additive" ≠ "" ∧
      ∃ e, birth_death_init 1 (some "additive") false = Except.error e :=
  ⟨by decide, construction_validation.1 1 "additive" (by decide)⟩

lemma random_particle_lt (n excl draw : ℕ) (h : draw < n - 1) :
    random_particle n excl draw < n := by
  simp only [random_particle]
  split <;> omega

lemma eventParticles_lt (prob rand : List ℝ) :
    ∀ i ∈ eventParticles prob rand, i < prob.length := by
  intro i hi
  simp only [eventParticles, List.mem_filter, List.mem_range] at hi
  exact hi.1

lemma selLoop_lt (beta : List ℝ) (n : ℕ) (draws : ℕ → ℕ)
    (hdr : ∀ k, draws k < n - 1) (cands : List ℕ) :
    ∀ (dup kill : List ℕ) (k : ℕ),
      (∀ i ∈ cands, i < n) → (∀ i ∈ dup, i < n) → (∀ i ∈ kill, i < n) →
      (∀ i ∈ (selLoop beta n draws cands dup kill k).1, i < n) ∧
      (∀ i ∈ (selLoop beta n draws cands dup kill k).2, i < n) := by
  induction cands with
  | nil =>
    intro dup kill k _ hdup hkill
    simpa [selLoop] using ⟨hdup, hkill⟩
  | cons c rest ih =>
    intro dup kill k hc hdup hkill
    have hcn : c < n := hc c (by simp)
    have hrest : ∀ i ∈ rest, i < n := fun i hi => hc i (by simp [hi])
    simp only [selLoop]
    split_ifs with h1 h2 h3
    · exact ih dup kill k hrest hdup hkill
    · refine ih _ _ _ hrest ?_ ?_
      · intro i hi
        rcases List.mem_append.mp hi with hi | hi
        · exact hdup i hi
        · simp only [List.mem_singleton] at hi
          subst hi
          exact random_particle_lt n c (draws k) (hdr k)
      · intro i hi
        rcases List.mem_append.mp hi with hi | hi
        · exact hkill i hi
        · simp only [List.mem_singleton] at hi
          omega
    · refine ih _ _ _ hrest ?_ ?_
      · intro i hi
        rcases List.mem_append.mp hi with hi | hi
        · exact hdup i hi
        · simp only [List.mem_singleton] at hi
          omega
      · intro i hi
        rcases List.mem_append.mp hi with hi | hi
        · exact hkill i hi
        · simp only [List.mem_singleton] at hi
          subst hi
          exact random_particle_lt n c (draws k) (hdr k)
    · exact ih dup kill k hrest hdup hkill

/-- Claim C10: for every particle count n ≥ 2, every duplicate index and
every kill index in the pairs returned by calculate_birth_death lies in
[0, n), whatever the uniform draws, the shuffle permutation and the partner
draws (the latter drawn by the RNG from [0, n-1)) are. -/
theorem calculate_birth_death_indices_in_range (beta : List ℝ) (dt rf : ℝ)
    (rand : List ℝ) (shuffle : List ℕ → List ℕ) (draws : ℕ → ℕ) (n : ℕ)
    (hn : n = beta.length) (h2 : 2 ≤ n) (hsh : ∀ l, (shuffle l).Perm l)
    (hdr : ∀ k, draws k < n - 1) :
    ∀ p ∈ calculate_birth_death beta dt rf rand shuffle draws,
      p.1 < n ∧ p.2 < n := by
  intro p hp
  subst hn
  simp only [calculate_birth_death] at hp
  have hcb : ∀ i ∈ shuffle (eventParticles (probs beta dt rf) rand),
      i < beta.length := by
    intro i hi
    have hmem := (hsh _).mem_iff.mp hi
    have := eventParticles_lt _ _ i hmem
    simpa [probs] using this
  have hall := selLoop_lt beta beta.length draws hdr _ [] [] 0 hcb
    (by simp) (by simp)
  have hmem := List.of_mem_zip hp
  exact ⟨hall.1 _ hmem.1, hall.2 _ hmem.2⟩

/-- Witness for C10 at a concrete two-particle invocation. -/
theorem calculate_birth_death_indices_in_range_witness :
    2 ≤ 2 ∧
      ∀ p ∈ calculate_birth_death [(1 : ℝ), -1] 1 0 [1, 1] id fun _ => 0,
        p.1 < 2 ∧ p.2 < 2 :=
  ⟨le_refl 2,
    calculate_birth_death_indices_in_range [(1 : ℝ), -1] 1 0 [1, 1] id
      (fun _ => 0) 2 (by simp) (by norm_num) (fun l => List.Perm.refl l)
      (fun k => by norm_num)⟩

/-- Claim C1 fails on the code: with three particles, beta = [0, -1, -1],
dt = rate_fac = 1, all three uniform draws equal to 0 (so particles 1 and 2
are duplication candidates), identity shuffle and both partner draws equal
to 0, the selection returns the two events (1, 0) and (2, 0): particle 0 is
the kill target of both events, so the kill indices of one selection call
are NOT pairwise disjoint.  The candidate loop only skips candidates that
already appear in kill_list; nothing prevents random_particle from drawing
a kill target that is already in kill_list. -/
theorem calculate_birth_death_kill_collision :
    calculate_birth_death [(0 : ℝ), -1, -1] 1 1 [0, 0, 0] id (fun _ => 0) =
      [(1, 0), (2, 0)] ∧
    ¬ List.Pairwise (· ≠ ·)
      ((calculate_birth_death [(0 : ℝ), -1, -1] 1 1 [0, 0, 0] id
        fun _ => 0).map Prod.snd) := by
  have hexp1 : Real.exp (-1) ≤ 1 := Real.exp_le_one_iff.mpr (by norm_num)
  have hprobs : probs [(0 : ℝ), -1, -1] 1 1 =
      [0, 1 - Real.exp (-1), 1 - Real.exp (-1)] := by
    simp only [probs, List.map]
    norm_num
  have hev : eventParticles [(0 : ℝ), 1 - Real.exp (-1), 1 - Real.exp (-1)]
      [0, 0, 0] = [0, 1, 2] := by
    have hr : List.range 3 = [0, 1, 2] := rfl
    simp only [eventParticles, List.length_cons, List.length_nil, hr,
      List.filter_cons, List.filter_nil, List.getD_eq_getElem?_getD]
    norm_num [hexp1, sub_nonneg]
  have hloop : selLoop [(0 : ℝ), -1, -1] 3 (fun _ => 0) [0, 1, 2] [] [] 0 =
      ([1, 2], [0, 0]) := by
    norm_num [selLoop, random_particle]
  have hmain : calculate_birth_death [(0 : ℝ), -1, -1] 1 1 [0, 0, 0] id
      (fun _ => 0) = [(1, 0), (2, 0)] := by
    simp only [calculate_birth_death, List.length_cons, List.length_nil,
      hprobs, hev, id, hloop]
    rfl
  refine ⟨hmain, ?_⟩
  rw [hmain]
  decide

/-- Counterexample to claim C2: first, an engine constructed with
rate_factor = 0 actually gets rate_fac = 1.0, because line 71 of
birth_death.py (rate_factor or 1.0) treats the falsy float 0.0 like None —
so with beta = [1] the per-particle probability is 1 - exp(-1) ≠ 0.
Second, even when the effective product dt·rate_fac is 0 every probability
is 0, but the candidate test is rand <= prob, so uniform draws equal to
exactly 0 (possible, since rng.random samples [0, 1)) still produce a
nonempty event list. -/
theorem rate_factor_zero_not_noop :
    rate_fac_of (some 0) = 1 ∧
    probs [(1 : ℝ)] 1 (rate_fac_of (some 0)) ≠ [0] ∧
    calculate_birth_death [(1 : ℝ), -1] 1 0 [0, 0] id (fun _ => 0) ≠ [] := by
  have hfac : rate_fac_of (some 0) = 1 := by simp [rate_fac_of]
  have hexp : Real.exp (-1) < 1 := by
    calc Real.exp (-1) < Real.exp 0 := Real.exp_lt_exp.mpr (by norm_num)
    _ = 1 := Real.exp_zero
  refine ⟨hfac, ?_, ?_⟩
  · rw [hfac]
    simp only [probs, List.map]
    intro h
    have h2 := List.head_eq_of_cons_eq h
    simp only [abs_one, mul_one] at h2
    linarith [hexp]
  · have hprobs : probs [(1 : ℝ), -1] 1 0 = [0, 0] := by
      simp only [probs, List.map]
      norm_num
    have hev : eventParticles [(0 : ℝ), 0] [0, 0] = [0, 1] := by
      have hr : List.range 2 = [0, 1] := rfl
      simp only [eventParticles, List.length_cons, List.length_nil, hr,
        List.filter_cons, List.filter_nil, List.getD_eq_getElem?_getD]
      norm_num
    have hloop : selLoop [(1 : ℝ), -1] 2 (fun _ => 0) [0, 1] [] [] 0 =
        ([1, 1], [0, 0]) := by
      norm_num [selLoop, random_particle]
    simp only [calculate_birth_death, List.length_cons, List.length_nil,
      hprobs, hev, id, hloop]
    simp

/-- Claim C2 (amended): when the effective dt or the effective rate factor
stored on the engine is 0, every per-particle event probability is 0; and
if additionally every uniform draw of the invocation is strictly positive,
the returned event list is empty.  (The amendment is forced twice: a
constructor argument rate_factor = 0 is replaced by the default 1.0, so the
engine field can only be 0 through dt = md_dt·stride = 0; and a uniform
draw of exactly 0 defeats the rand <= prob candidate test even at zero
probability, so the draws must be assumed nonzero.) -/
theorem no_events_when_dt_or_ratefac_zero (beta : List ℝ) (dt rf : ℝ)
    (rand : List ℝ) (shuffle : List ℕ → List ℕ) (draws : ℕ → ℕ)
    (hz : dt = 0 ∨ rf = 0) (hrand : ∀ x ∈ rand, 0 < x)
    (hsh : ∀ l, (shuffle l).Perm l) :
    (∀ p ∈ probs beta dt rf, p = 0) ∧
    calculate_birth_death beta dt rf rand shuffle draws = [] := by
  have hp : ∀ p ∈ probs beta dt rf, p = 0 := by
    intro p hp
    simp only [probs, List.mem_map] at hp
    obtain ⟨b, _, rfl⟩ := hp
    rcases hz with h | h <;> simp [h]
  refine ⟨hp, ?_⟩
  have hev : eventParticles (probs beta dt rf) rand = [] := by
    simp only [eventParticles, List.filter_eq_nil_iff]
    intro i hi
    have h0 : (probs beta dt rf).getD i 0 = 0 := by
      rcases lt_or_le i (probs beta dt rf).length with hl | hl
      · rw [List.getD_eq_getElem _ _ hl]
        exact hp _ (List.getElem_mem hl)
      · exact List.getD_eq_default _ _ hl
    have h1 : 0 < rand.getD i 1 := by
      rcases lt_or_le i rand.length with hl | hl
      · rw [List.getD_eq_getElem _ _ hl]
        exact hrand _ (List.getElem_mem hl)
      · rw [List.getD_eq_default _ _ hl]
        norm_num
    simp only [h0, decide_eq_true_eq]
    exact not_le.mpr h1
  have hnil : shuffle (eventParticles (probs beta dt rf) rand) = [] := by
    rw [hev]
    exact (hsh []).eq_nil
  simp only [calculate_birth_death, hnil, selLoop, List.zip_nil_right]

/-- Witness for C2 (amended) at a concrete invocation with rf = 0 and
draws 1/2. -/
theorem no_events_when_dt_or_ratefac_zero_witness :
    ((1 : ℝ) = 0 ∨ (0 : ℝ) = 0) ∧ (∀ x ∈ [(1 : ℝ) / 2, 1 / 2], 0 < x) ∧
    ((∀ p ∈ probs [(1 : ℝ), -1] 1 0, p = 0) ∧
      calculate_birth_death [(1 : ℝ), -1] 1 0 [1 / 2, 1 / 2] id
        (fun _ => 0) = []) :=
  ⟨Or.inr rfl, by norm_num,
    no_events_when_dt_or_ratefac_zero [(1 : ℝ), -1] 1 0 [1 / 2, 1 / 2] id
      (fun _ => 0) (Or.inr rfl) (by norm_num) (fun l => List.Perm.refl l)⟩

lemma oadd_isSome (b : Option ℝ) (c : ℝ) : (oadd b c).isSome = b.isSome := by
  cases b <;> simp [oadd]

lemma osub_isSome (b : Option ℝ) (c : ℝ) : (osub b c).isSome = b.isSome := by
  cases b <;> simp [osub]

lemma finiteMean_sub_self (n : ℕ) (b : Fin n → Option ℝ)
    (hpos : ∃ i, (b i).isSome) :
    finiteMean n (fun i => osub (b i) (finiteMean n b)) = 0 := by
  set m := finiteMean n b with hm
  set S := Finset.univ.filter fun i => (b i).isSome with hS
  have hSS : (Finset.univ.filter fun i => (osub (b i) m).isSome) = S := by
    ext i
    simp [hS, osub_isSome]
  have hcard : (S.card : ℝ) ≠ 0 := by
    obtain ⟨i, hi⟩ := hpos
    have hiS : i ∈ S := by simp [hS, hi]
    have hposc : 0 < S.card := Finset.card_pos.mpr ⟨i, hiS⟩
    exact_mod_cast hposc.ne'
  have hsum : ∑ i ∈ S, (osub (b i) m).getD 0 =
      (∑ i ∈ S, (b i).getD 0) - S.card * m := by
    have h1 : ∑ i ∈ S, (osub (b i) m).getD 0 =
        ∑ i ∈ S, ((b i).getD 0 - m) := by
      refine Finset.sum_congr rfl fun i hi => ?_
      simp only [hS, Finset.mem_filter] at hi
      obtain ⟨x, hx⟩ := Option.isSome_iff_exists.mp hi.2
      simp [osub, hx]
    rw [h1, Finset.sum_sub_distrib, Finset.sum_const, nsmul_eq_mul]
  simp only [finiteMean, hSS]
  rw [hsum, hm]
  simp only [finiteMean, ← hS]
  rw [mul_div_cancel₀ _ hcard, sub_self, zero_div]

/-- Claim C7: with correction variant None, after the mean subtraction the
mean of beta over its finite entries is exactly 0, and every entry that was
-inf before the subtraction (zero density) is still -inf afterwards.  The
hypothesis requires at least one particle with positive density, so that
the set of finite entries the code averages over is nonempty. -/
theorem calc_betas_none_mean_zero (n : ℕ) (density ene : Fin n → ℝ)
    (invKt : ℝ) (corr : Fin n → ℝ) (hpos : ∃ i, 0 < density i) :
    finiteMean n (calc_betas_core n density ene invKt none corr) = 0 ∧
    ∀ i, elog (density i) = none →
      calc_betas_core n density ene invKt none corr i = none := by
  have hcode : calc_betas_core n density ene invKt none corr =
      fun i => osub (oadd (elog (density i)) (ene i * invKt))
        (finiteMean n fun j => oadd (elog (density j)) (ene j * invKt)) := by
    simp [calc_betas_core]
  constructor
  · rw [hcode]
    refine finiteMean_sub_self n _ ?_
    obtain ⟨i, hi⟩ := hpos
    exact ⟨i, by simp [oadd_isSome, elog, hi]⟩
  · intro i hi
    rw [hcode]
    simp [hi, oadd, osub]

/-- Witness for C7 with a single particle of density 1. -/
theorem calc_betas_none_mean_zero_witness :
    (∃ i, 0 < (![(1 : ℝ)]) i) ∧
    (finiteMean 1 (calc_betas_core 1 ![(1 : ℝ)] ![0] 1 none ![0]) = 0 ∧
      ∀ i, elog ((![(1 : ℝ)]) i) = none →
        calc_betas_core 1 ![(1 : ℝ)] ![0] 1 none ![0] i = none) :=
  ⟨⟨0, by norm_num⟩,
    calc_betas_none_mean_zero 1 ![(1 : ℝ)] ![0] 1 ![0] ⟨0, by norm_num⟩⟩

/-- Counterexample to claim C3: one particle with density 1, energy 0,
kT = 1 and interpolated additive correction value 1.  The code computes
beta = (log 1 + 0) - mean(log 1 + 0) + 1 = 1, while the claimed formula
(correction included before the mean subtraction) gives
(log 1 + 0 + 1) - mean(log 1 + 0 + 1) = 0. -/
theorem additive_correction_order_counterexample :
    calc_betas_core 1 ![(1 : ℝ)] ![0] 1 (some "additive") ![1] 0 = some 1 ∧
    calc_betas_additive_claimC3 1 ![(1 : ℝ)] ![0] 1 ![1] 0 = some 0 ∧
    calc_betas_core 1 ![(1 : ℝ)] ![0] 1 (some "additive") ![1] 0 ≠
      calc_betas_additive_claimC3 1 ![(1 : ℝ)] ![0] 1 ![1] 0 := by
  have h1 : calc_betas_core 1 ![(1 : ℝ)] ![0] 1 (some "additive") ![1] 0 =
      some 1 := by
    norm_num [calc_betas_core, elog, oadd, osub, finiteMean, Real.log_one,
      Fin.sum_univ_one, Matrix.cons_val_zero, Finset.filter_true_of_mem]
  have h2 : calc_betas_additive_claimC3 1 ![(1 : ℝ)] ![0] 1 ![1] 0 =
      some 0 := by
    norm_num [calc_betas_additive_claimC3, elog, oadd, osub, finiteMean,
      Real.log_one, Fin.sum_univ_one, Matrix.cons_val_zero,
      Finset.filter_true_of_mem]
  refine ⟨h1, h2, ?_⟩
  rw [h1, h2]
  norm_num

/-- Claim C3 (amended): for the Additive variant the code computes beta as
log(density) + energy/kT minus the mean of log(density) + energy/kT over
its finite entries, with the interpolated correction value added only
afterwards — the correction does not enter the averaged quantity. -/
theorem calc_betas_additive_after_mean (n : ℕ) (density ene : Fin n → ℝ)
    (invKt : ℝ) (corr : Fin n → ℝ) :
    calc_betas_core n density ene invKt (some "additive") corr =
      calc_betas_additive_code n density ene invKt corr := by
  simp [calc_betas_core, calc_betas_additive_code]

lemma prod_heights (d : ℕ) (bw : Fin d → ℝ) :
    ∏ k, 1 / (Real.sqrt (2 * Real.pi) * bw k) =
      1 / ((2 * Real.pi) ^ ((d : ℝ) / 2) * ∏ k, bw k) := by
  have hsqrt : Real.sqrt (2 * Real.pi) ^ d = (2 * Real.pi) ^ ((d : ℝ) / 2) := by
    rw [Real.sqrt_eq_rpow,
      ← Real.rpow_natCast ((2 * Real.pi) ^ ((1 : ℝ) / 2)) d,
      ← Real.rpow_mul (by positivity)]
    have h : (1 / 2 : ℝ) * d = (d : ℝ) / 2 := by ring
    rw [h]
  simp only [one_div, Finset.prod_inv_distrib]
  rw [Finset.prod_mul_distrib, Finset.prod_const, Finset.card_univ,
    Fintype.card_fin, hsqrt]

lemma calc_kernel_prod (d : ℕ) (bw dist : Fin d → ℝ) :
    calc_kernel d bw dist =
      ∏ k, 1 / (Real.sqrt (2 * Real.pi) * bw k) *
        Real.exp (-(dist k ^ 2) / (2 * bw k ^ 2)) := by
  unfold calc_kernel
  rw [← prod_heights, Finset.prod_mul_distrib]
  congr 1
  rw [← Real.exp_sum]
  congr 1
  rw [← Finset.sum_neg_distrib]
  exact Finset.sum_congr rfl fun k _ => (neg_div _ _).symm

lemma calc_kernel_zero (d : ℕ) (bw : Fin d → ℝ) :
    calc_kernel d bw (fun _ => 0) =
      ∏ k, 1 / (Real.sqrt (2 * Real.pi) * bw k) := by
  rw [calc_kernel_prod]
  refine Finset.prod_congr rfl fun k _ => ?_
  norm_num

lemma pdist_eq_manual (n d : ℕ) (pos : Fin n → Fin d → ℝ) (bw : Fin d → ℝ) :
    walker_density_pdist n d pos bw = walker_density_manual n d pos bw := by
  funext x
  unfold walker_density_pdist walker_density_manual
  split_ifs with h
  · subst h
    dsimp only
    congr 1
    refine Finset.sum_congr rfl fun i _ => ?_
    by_cases hix : i = x
    · subst hix
      rw [if_pos rfl]
      have hfun : (fun k => pos i k - pos i k) = fun _ : Fin 1 => (0 : ℝ) :=
        funext fun k => sub_self _
      rw [hfun, calc_kernel_zero, Fin.prod_univ_one]
      have h0 : (⟨0, by omega⟩ : Fin 1) = 0 := Subsingleton.elim _ _
      rw [h0]
    · rw [if_neg hix, calc_kernel_prod, Fin.prod_univ_one, Fin.sum_univ_one]
      rw [show (pos i 0 - pos x 0) ^ 2 = (pos x 0 - pos i 0) ^ 2 from by ring]
      rfl
  · dsimp only
    congr 1
    refine Finset.sum_congr rfl fun i _ => ?_
    by_cases hix : i = x
    · subst hix
      rw [if_pos rfl]
      have hfun : (fun k => pos i k - pos i k) = fun _ : Fin d => (0 : ℝ) :=
        funext fun k => sub_self _
      rw [hfun, calc_kernel_zero]
    · rw [if_neg hix, calc_kernel_prod]
      refine Finset.prod_congr rfl fun k _ => ?_
      rw [show (pos i k - pos x k) ^ 2 = (pos x k - pos i k) ^ 2 from by ring]

/-- Claim C4: for every particle configuration and positive bandwidth
vector, the dense pairwise strategy (_walker_density_pdist) and the
per-particle-loop strategy (_walker_density_manual) return the same density
vector over exact real arithmetic. -/
theorem walker_density_strategies_agree (n d : ℕ) (pos : Fin n → Fin d → ℝ)
    (bw : Fin d → ℝ) (hbw : ∀ k, 0 < bw k) :
    walker_density_pdist n d pos bw = walker_density_manual n d pos bw :=
  pdist_eq_manual n d pos bw

/-- Witness for C4 with one particle at the origin and bandwidth 1. -/
theorem walker_density_strategies_agree_witness :
    (∀ k : Fin 1, 0 < (![(1 : ℝ)]) k) ∧
    walker_density_pdist 1 1 (fun _ _ => 0) ![(1 : ℝ)] =
      walker_density_manual 1 1 (fun _ _ => 0) ![(1 : ℝ)] :=
  ⟨fun k => by fin_cases k; norm_num,
    walker_density_strategies_agree 1 1 (fun _ _ => 0) ![(1 : ℝ)]
      (fun k => by fin_cases k; norm_num)⟩

/-- Claim C8: for every configuration with positive bandwidths, the density
returned for each particle (whichever strategy the dispatcher picks) is the
mean over all n particles — the particle itself included, divisor n — of
the factorized Gaussian kernel at the pairwise displacement; for n = 1 the
density is the kernel value at distance 0. -/
theorem walker_density_mean_kernel (n d : ℕ) (pos : Fin n → Fin d → ℝ)
    (bw : Fin d → ℝ) (hbw : ∀ k, 0 < bw k) :
    (∀ i, walker_density n d pos bw i =
      (∑ j, calc_kernel d bw fun k => pos i k - pos j k) / n) ∧
    (n = 1 → ∀ i, walker_density n d pos bw i =
      calc_kernel d bw fun _ => 0) := by
  have hdisp : walker_density n d pos bw = walker_density_manual n d pos bw := by
    unfold walker_density
    split_ifs with h
    · exact pdist_eq_manual n d pos bw
    · rfl
  constructor
  · intro i
    rw [hdisp]
    rfl
  · intro h1
    subst h1
    intro i
    rw [hdisp]
    unfold walker_density_manual
    have hi : i = 0 := Subsingleton.elim i 0
    subst hi
    rw [Fin.sum_univ_one]
    have hfun : (fun k => pos 0 k - pos 0 k) = fun _ : Fin d => (0 : ℝ) :=
      funext fun k => sub_self _
    rw [hfun]
    norm_num

/-- Witness for C8 with one particle at the origin and bandwidth 2. -/
theorem walker_density_mean_kernel_witness :
    (∀ k : Fin 1, 0 < (![(2 : ℝ)]) k) ∧
    ((∀ i : Fin 1, walker_density 1 1 (fun _ _ => 0) ![(2 : ℝ)] i =
      (∑ j : Fin 1, calc_kernel 1 ![(2 : ℝ)] fun k =>
        (fun _ _ => (0 : ℝ)) i k - (fun _ _ => (0 : ℝ)) j k) / ((1 : ℕ) : ℝ)) ∧
    (1 = 1 → ∀ i : Fin 1, walker_density 1 1 (fun _ _ => 0) ![(2 : ℝ)] i =
      calc_kernel 1 ![(2 : ℝ)] fun _ => 0)) :=
  ⟨fun k => by fin_cases k; norm_num,
    walker_density_mean_kernel 1 1 (fun _ _ => 0) ![(2 : ℝ)]
      (fun k => by fin_cases k; norm_num)⟩

end BDLD
